import Mathlib

/-!
# TainanHotelMonitor: change detection, registry and notification

A shallow embedding of `src/index.js` (class `TainanHotelMonitor`) and the
properties of its monitoring pipeline.

* JavaScript strings are finite sequences of UTF-16 code units; they are
  embedded as lists of code units, so that `substring`, `includes`, `===` and
  template concatenation act on the same units as in the source.
* `this.previousOffers` (a `Map`) is an insertion-ordered association list with
  the `get` / `set` behaviour of `Map.prototype`.
* `this.hotelSources` (an `Array`) is a list.
* The collaborators outside the class (HTTP fetch, DOM query, clock) appear as
  explicit inputs: a fetch outcome per source, the trimmed texts of every
  structural match, and the clock readings.
-/

namespace TainanHotelMonitor

/-! ## Strings -/

/-- A JavaScript string, as the list of its UTF-16 code units. -/
abbrev JsString := List Nat

/-- UTF-16 encoding of one code point. -/
def utf16Char (c : Char) : JsString :=
  if c.toNat < 65536 then [c.toNat]
  else [55296 + (c.toNat - 65536) / 1024, 56320 + (c.toNat - 65536) % 1024]

/-- The code units of a string literal of the source. -/
def utf16 (s : String) : JsString :=
  s.toList.flatMap utf16Char

/-- The method `String.prototype.substring(start, end)` for non-negative integer
arguments: the arguments are swapped when `start > end` and clamped to the length. -/
def substring (s : JsString) (start stop : Nat) : JsString :=
  (s.take (max start stop)).drop (min start stop)

/-- The method `String.prototype.includes(search)`: `search` occurs in `s` as a
contiguous run of code units. -/
def includes : JsString → JsString → Bool
  | [], search => search.isEmpty
  | c :: cs, search => search.isPrefixOf (c :: cs) || includes cs search

/-- Truthiness of a string value: only the empty string is falsy. -/
def truthy (s : JsString) : Bool :=
  !s.isEmpty

/-- Decimal rendering of a non-negative integer inside a template literal. -/
def numberToString (n : Nat) : JsString :=
  utf16 (Nat.repr n)

/-! ## Data model -/

/-- An element of `this.hotelSources`. -/
structure Hotel where
  name : JsString
  url : JsString
  selector : JsString
  deriving DecidableEq, Repr

/-- The object literal pushed by `scrapeHotelOffers`. -/
structure Offer where
  hotel : JsString
  title : JsString
  price : JsString
  description : JsString
  url : JsString
  timestamp : JsString
  deriving DecidableEq, Repr

/-- The store `this.previousOffers`: a `Map` from key strings to offers, kept in
insertion order. -/
abbrev OfferMap := List (JsString × Offer)

/-- The method `Map.prototype.get`; `none` stands for `undefined`. -/
def OfferMap.get : OfferMap → JsString → Option Offer
  | [], _ => none
  | (k, v) :: rest, key => if k = key then some v else OfferMap.get rest key

/-- The method `Map.prototype.set`: an existing key keeps its position and gets
the new value, a fresh key is appended. -/
def OfferMap.set : OfferMap → JsString → Offer → OfferMap
  | [], key, value => [(key, value)]
  | (k, v) :: rest, key, value =>
    if k = key then (k, value) :: rest else (k, v) :: OfferMap.set rest key value

/-- The keys of the store, in insertion order. -/
def OfferMap.keys (m : OfferMap) : List JsString :=
  m.map Prod.fst

/-! ## Registry: `removeHotel`, `addHotel` -/

/-- The search loop of `Array.prototype.findIndex`, from position `k` on: the
index of the first element satisfying `p`, or `-1`. -/
def findIndexFrom {α : Type} (p : α → Bool) : List α → Nat → Int
  | [], _ => -1
  | x :: xs, k => if p x then Int.ofNat k else findIndexFrom p xs (k + 1)

/-- The method `Array.prototype.findIndex`. -/
def findIndex {α : Type} (p : α → Bool) (xs : List α) : Int :=
  findIndexFrom p xs 0

/-- The call `splice(index, 1)` for a non-negative `index`: deletes one element. -/
def splice1 {α : Type} (xs : List α) (index : Nat) : List α :=
  xs.take index ++ xs.drop (index + 1)

/-- The callback of `findIndex` in `removeHotel`. -/
def removeMatches (hotelName : JsString) (hotel : Hotel) : Bool :=
  includes hotel.name hotelName || includes hotelName hotel.name

/-- The method `removeHotel`: the returned flag and the registry afterwards. -/
def removeHotel (hotelSources : List Hotel) (hotelName : JsString) : Bool × List Hotel :=
  match findIndex (removeMatches hotelName) hotelSources with
  | Int.ofNat index => (true, splice1 hotelSources index)
  | Int.negSucc _ => (false, hotelSources)

/-- The selector given to hotels added at run time. -/
def defaultSelector : JsString :=
  utf16 ".promotion, .offer, .news, .package"

/-- The method `addHotel`: the registry afterwards. -/
def addHotel (hotelSources : List Hotel) (hotelName url : JsString) : List Hotel :=
  let newHotel : Hotel := { name := hotelName, url := url, selector := defaultSelector }
  let exists_ := hotelSources.any (fun hotel => decide (hotel.name = hotelName))
  if !exists_ then hotelSources ++ [newHotel] else hotelSources

/-! ## Extraction: `scrapeHotelOffers` -/

/-- One element matched by `$(source.selector)`: the three texts after
`.first().text().trim()`, and the clock reading `new Date().toISOString()` taken
while the element is handled. -/
structure RawMatch where
  title : JsString
  price : JsString
  description : JsString
  now : JsString
  deriving DecidableEq, Repr

/-- The body of the `each` callback: pushes an offer or leaves `offers` as it is. -/
def scrapeElement (source : Hotel) (offers : List Offer) (el : RawMatch) : List Offer :=
  if truthy el.title && (truthy el.price || truthy el.description) then
    offers ++ [{ hotel := source.name,
                 title := substring el.title 0 100,
                 price := substring el.price 0 50,
                 description := substring el.description 0 200,
                 url := source.url,
                 timestamp := el.now }]
  else offers

/-- The method `scrapeHotelOffers`. The response is `none` when the `try` block
throws (the request fails or times out), and the `catch` then returns `[]`;
otherwise it holds the structural matches of the page in document order. -/
def scrapeHotelOffers (source : Hotel) (response : Option (List RawMatch)) : List Offer :=
  match response with
  | some elements => elements.foldl (scrapeElement source) []
  | none => []

/-! ## Change detection: `isNewOffer` -/

/-- The key template `${offer.hotel}-${offer.title}`. -/
def offerKey (offer : Offer) : JsString :=
  offer.hotel ++ utf16 "-" ++ offer.title

/-- The method `isNewOffer`. -/
def isNewOffer (previousOffers : OfferMap) (offer : Offer) : Bool :=
  let key := offerKey offer
  match previousOffers.get key with
  | none => true
  | some previousOffer =>
    if offer.price ≠ previousOffer.price then true
    else false

/-! ## Notification: `sendOfferNotification`, `pushLineMessage` -/

/-- The body of the `forEach` callback of `sendOfferNotification`: the message
after the entry of `offer` at position `index` has been appended. -/
def appendEntry (message : JsString) (offer : Offer) (index : Nat) : JsString :=
  let message := message ++ (numberToString (index + 1) ++ utf16 ". " ++ offer.hotel ++ utf16 "\n")
  let message := message ++ (utf16 "📝 " ++ offer.title ++ utf16 "\n")
  let message :=
    if truthy offer.price then message ++ (utf16 "💰 " ++ offer.price ++ utf16 "\n")
    else message
  let message :=
    if truthy offer.description then
      message ++ (utf16 "📋 " ++ substring offer.description 0 60 ++ utf16 "...\n")
    else message
  message ++ (utf16 "🔗 " ++ offer.url ++ utf16 "\n\n")

/-- The method `Array.prototype.forEach` with an accumulator: the callback gets
the element and its index, starting at `index`. -/
def forEachFrom {α β : Type} (f : β → α → Nat → β) : List α → Nat → β → β
  | [], _, acc => acc
  | x :: xs, index, acc => forEachFrom f xs (index + 1) (f acc x index)

/-- The method `sendOfferNotification`: the argument of its call of
`pushLineMessage`, or `none` when it returns without calling it. `now` is the
text of `new Date().toLocaleString` with the locale argument of the source. -/
def sendOfferNotification (offers : List Offer) (now : JsString) : Option JsString :=
  if offers.length = 0 then none
  else
    let message := utf16 "🏨 發現台南飯店新優惠！\n\n"
    let message := forEachFrom appendEntry (offers.take 5) 0 message
    let message :=
      if offers.length > 5 then
        message ++ (utf16 "... 還有 " ++ numberToString (offers.length - 5) ++ utf16 " 個優惠\n")
      else message
    let message := message ++ (utf16 "⏰ 檢查時間：" ++ now)
    some message

/-- The method `pushLineMessage`: the recipient and text of the push request it
posts, or `none` when `this.userId` is falsy. -/
def pushLineMessage (userId : Option JsString) (message : JsString) :
    Option (JsString × JsString) :=
  match userId with
  | none => none
  | some uid => if truthy uid then some (uid, message) else none

/-! ## The sweep: `monitorHotels` -/

/-- The variables of one run of `monitorHotels`. `visited` records the sources
handed to `scrapeHotelOffers`, in call order. -/
structure SweepState where
  previousOffers : OfferMap
  newOffers : List Offer
  checkedCount : Nat
  visited : List Hotel
  deriving DecidableEq, Repr

/-- The body of the inner loop of `monitorHotels`: `isNewOffer`, then the push
and the `previousOffers.set` when it answers true. -/
def monitorOffer (st : SweepState) (offer : Offer) : SweepState :=
  if isNewOffer st.previousOffers offer then
    { st with newOffers := st.newOffers ++ [offer],
              previousOffers := st.previousOffers.set (offerKey offer) offer }
  else st

/-- The body of the outer loop of `monitorHotels` for one source and the outcome
of its request. -/
def monitorSource (st : SweepState) (entry : Hotel × Option (List RawMatch)) : SweepState :=
  let offers := scrapeHotelOffers entry.1 entry.2
  let st := { st with checkedCount := st.checkedCount + 1, visited := st.visited ++ [entry.1] }
  offers.foldl monitorOffer st

/-- The variables of `monitorHotels` before its loop. -/
def sweepStart (previousOffers : OfferMap) : SweepState :=
  { previousOffers := previousOffers, newOffers := [], checkedCount := 0, visited := [] }

/-- The loop of `monitorHotels` over `this.hotelSources`, each source paired with
the outcome of its request. -/
def monitorLoop (previousOffers : OfferMap) (run : List (Hotel × Option (List RawMatch))) :
    SweepState :=
  run.foldl monitorSource (sweepStart previousOffers)

/-- The method `monitorHotels`: the final variables and the message handed to
`pushLineMessage` (`none` when no notification is sent). -/
def monitorHotels (previousOffers : OfferMap) (run : List (Hotel × Option (List RawMatch)))
    (now : JsString) : SweepState × Option JsString :=
  let st := monitorLoop previousOffers run
  (st, if st.newOffers.length > 0 then sendOfferNotification st.newOffers now else none)

/-- All offers extracted during one run, in the order they are classified. -/
def sweepOffers (run : List (Hotel × Option (List RawMatch))) : List Offer :=
  run.flatMap (fun entry => scrapeHotelOffers entry.1 entry.2)

/-! ## The notification text, as the specification describes it -/

/-- The first line block of every notification. -/
def notificationHeader : JsString :=
  utf16 "🏨 發現台南飯店新優惠！\n\n"

/-- The detailed entry of one offer, carrying the number `number`: hotel, title,
price if present, description cut to 60 units with an ellipsis if present, url. -/
def detailedEntry (number : Nat) (offer : Offer) : JsString :=
  numberToString number ++ utf16 ". " ++ offer.hotel ++ utf16 "\n" ++
  (utf16 "📝 " ++ offer.title ++ utf16 "\n") ++
  (if offer.price = [] then [] else utf16 "💰 " ++ offer.price ++ utf16 "\n") ++
  (if offer.description = [] then []
   else utf16 "📋 " ++ offer.description.take 60 ++ utf16 "...\n") ++
  (utf16 "🔗 " ++ offer.url ++ utf16 "\n\n")

/-- The detailed entries of a sequence of offers, numbered from `start` on. -/
def numberedEntries : Nat → List Offer → List JsString
  | _, [] => []
  | start, offer :: rest => detailedEntry start offer :: numberedEntries (start + 1) rest

/-- The summary line for `count` offers left out of the detailed entries. -/
def remainderLine (count : Nat) : JsString :=
  utf16 "... 還有 " ++ numberToString count ++ utf16 " 個優惠\n"

/-- The closing line with the time of the check. -/
def notificationFooter (now : JsString) : JsString :=
  utf16 "⏰ 檢查時間：" ++ now

/-- The offer built from a structural match that passes the filter of
`scrapeHotelOffers`. -/
def offerOfMatch (source : Hotel) (el : RawMatch) : Offer :=
  { hotel := source.name,
    title := el.title.take 100,
    price := el.price.take 50,
    description := el.description.take 200,
    url := source.url,
    timestamp := el.now }

/-- The filter of the specification: a title, and a price or a description. -/
def keepsMatch (el : RawMatch) : Bool :=
  decide (el.title ≠ []) && (decide (el.price ≠ []) || decide (el.description ≠ []))

/-- What two sweeps must agree on for an offer to count as extracted again: hotel,
title and price. -/
def observed (offer : Offer) : JsString × JsString × JsString :=
  (offer.hotel, offer.title, offer.price)

/-! ## Sample inputs -/

/-- A registry of two hotels with distinct names. -/
def sampleRegistry : List Hotel :=
  [⟨utf16 "A", utf16 "https://a.example", defaultSelector⟩,
   ⟨utf16 "B", utf16 "https://b.example", defaultSelector⟩]

/-- A run over one source whose page shows the same title twice, with two prices. -/
def flappingRun : List (Hotel × Option (List RawMatch)) :=
  [(⟨utf16 "Hotel1", utf16 "https://hotel1.example/", defaultSelector⟩,
    some [⟨utf16 "Summer Deal", utf16 "$100", [], utf16 "2024-06-01T00:00:00.000Z"⟩,
          ⟨utf16 "Summer Deal", utf16 "$80", [], utf16 "2024-06-01T00:00:00.001Z"⟩])]

/-- A run over one source whose page shows one offer. -/
def steadyRun : List (Hotel × Option (List RawMatch)) :=
  [(⟨utf16 "Hotel1", utf16 "https://hotel1.example/", defaultSelector⟩,
    some [⟨utf16 "Summer Deal", utf16 "$100", [], utf16 "2024-06-01T00:00:00.000Z"⟩])]

/-- The same page read at a later time, with another description. -/
def steadyRunLater : List (Hotel × Option (List RawMatch)) :=
  [(⟨utf16 "Hotel1", utf16 "https://hotel1.example/", defaultSelector⟩,
    some [⟨utf16 "Summer Deal", utf16 "$100", utf16 "Sea view",
           utf16 "2024-06-01T06:00:00.000Z"⟩])]

/-- A run over three sources in which the request of the second one fails. -/
def threeSourceRun : List (Hotel × Option (List RawMatch)) :=
  [(⟨utf16 "Hotel1", utf16 "https://hotel1.example/", defaultSelector⟩,
    some [⟨utf16 "Summer Deal", utf16 "$100", [], utf16 "2024-06-01T00:00:00.000Z"⟩]),
   (⟨utf16 "Hotel2", utf16 "https://hotel2.example/", defaultSelector⟩, none),
   (⟨utf16 "Hotel3", utf16 "https://hotel3.example/", defaultSelector⟩,
    some [⟨utf16 "Winter Deal", [], utf16 "Two nights", utf16 "2024-06-01T00:00:06.000Z"⟩])]

/-- The offer of hotel `A` titled `B-C`. -/
def offerOfA : Offer :=
  ⟨utf16 "A", utf16 "B-C", utf16 "100", [], utf16 "https://a.example/",
   utf16 "2024-06-01T00:00:00.000Z"⟩

/-- The offer of hotel `A-B` titled `C`. -/
def offerOfAB : Offer :=
  ⟨utf16 "A-B", utf16 "C", utf16 "100", [], utf16 "https://ab.example/",
   utf16 "2024-06-01T00:00:03.000Z"⟩

/-! ## The store -/

theorem OfferMap.get_set_same (m : OfferMap) (key : JsString) (value : Offer) :
    (m.set key value).get key = some value := by
  induction m with
  | nil => simp [OfferMap.set, OfferMap.get]
  | cons e rest ih =>
    obtain ⟨k, v⟩ := e
    by_cases h : k = key
    · simp [OfferMap.set, OfferMap.get, h]
    · simp [OfferMap.set, OfferMap.get, h, ih]

theorem OfferMap.get_set_other (m : OfferMap) (key other : JsString) (value : Offer)
    (h : other ≠ key) : (m.set key value).get other = m.get other := by
  induction m with
  | nil => simp [OfferMap.set, OfferMap.get, Ne.symm h]
  | cons e rest ih =>
    obtain ⟨k, v⟩ := e
    by_cases hk : k = key
    · subst hk
      simp [OfferMap.set, OfferMap.get, Ne.symm h]
    · by_cases ho : k = other
      · subst ho
        simp [OfferMap.set, OfferMap.get, h]
      · simp [OfferMap.set, OfferMap.get, hk, ho, ih]

theorem OfferMap.keys_set (m : OfferMap) (key : JsString) (value : Offer) :
    (m.set key value).keys = if key ∈ m.keys then m.keys else m.keys ++ [key] := by
  induction m with
  | nil => simp [OfferMap.set, OfferMap.keys]
  | cons e rest ih =>
    obtain ⟨k, v⟩ := e
    by_cases hk : k = key
    · simp [OfferMap.set, OfferMap.keys, hk]
    · have hk2 : ¬ key = k := fun h => hk h.symm
      simp only [OfferMap.keys] at ih
      by_cases hm : key ∈ rest.map Prod.fst
      · simp [OfferMap.set, OfferMap.keys, hk, hk2, ih, hm]
      · simp [OfferMap.set, OfferMap.keys, hk, hk2, ih, hm]

theorem OfferMap.get_eq_none_iff (m : OfferMap) (key : JsString) :
    m.get key = none ↔ key ∉ m.keys := by
  induction m with
  | nil => simp [OfferMap.get, OfferMap.keys]
  | cons e rest ih =>
    obtain ⟨k, v⟩ := e
    simp only [OfferMap.keys] at ih
    by_cases hk : k = key
    · simp [OfferMap.get, OfferMap.keys, hk]
    · have hk2 : ¬ key = k := fun h => hk h.symm
      simp [OfferMap.get, OfferMap.keys, hk, hk2, ih]

/-! ## Change detection -/

theorem isNewOffer_eq_false_iff (previousOffers : OfferMap) (offer : Offer) :
    isNewOffer previousOffers offer = false ↔
      ∃ stored, previousOffers.get (offerKey offer) = some stored ∧
        stored.price = offer.price := by
  cases h : previousOffers.get (offerKey offer) with
  | none => simp [isNewOffer, h]
  | some stored =>
    by_cases hp : offer.price = stored.price
    · simp [isNewOffer, h, hp]
    · have hp2 : ¬ stored.price = offer.price := fun e => hp e.symm
      simp [isNewOffer, h, hp, hp2]

theorem isNewOffer_eq_true_iff (previousOffers : OfferMap) (offer : Offer) :
    isNewOffer previousOffers offer = true ↔
      previousOffers.get (offerKey offer) = none ∨
      ∃ stored, previousOffers.get (offerKey offer) = some stored ∧
        stored.price ≠ offer.price := by
  cases h : previousOffers.get (offerKey offer) with
  | none => simp [isNewOffer, h]
  | some stored =>
    by_cases hp : offer.price = stored.price
    · simp [isNewOffer, h, hp]
    · have hp2 : ¬ stored.price = offer.price := fun e => hp e.symm
      simp [isNewOffer, h, hp, hp2]

/-- C1. `isNewOffer` answers true exactly when the key of the offer has no entry
in `previousOffers` or the stored entry has another price string, and false
exactly when an entry exists with the same price string; the description, url
and timestamp of either offer play no part. -/
theorem isNewOffer_classifies (previousOffers : OfferMap) (offer : Offer) :
    (isNewOffer previousOffers offer = true ↔
      previousOffers.get (offerKey offer) = none ∨
      ∃ stored, previousOffers.get (offerKey offer) = some stored ∧
        stored.price ≠ offer.price) ∧
    (isNewOffer previousOffers offer = false ↔
      ∃ stored, previousOffers.get (offerKey offer) = some stored ∧
        stored.price = offer.price) ∧
    (∀ description url timestamp : JsString,
      isNewOffer previousOffers
        { offer with description := description, url := url, timestamp := timestamp } =
      isNewOffer previousOffers offer) :=
  ⟨isNewOffer_eq_true_iff previousOffers offer, isNewOffer_eq_false_iff previousOffers offer,
    fun _ _ _ => rfl⟩

theorem monitorOffer_get_other (st : SweepState) (offer : Offer) (key : JsString)
    (hkey : key ≠ offerKey offer) :
    (monitorOffer st offer).previousOffers.get key = st.previousOffers.get key := by
  by_cases h : isNewOffer st.previousOffers offer = true
  · simp [monitorOffer, h, OfferMap.get_set_other _ _ _ _ hkey]
  · simp [monitorOffer, h]

/-- C2. After the per-offer step of `monitorHotels`: when `isNewOffer` answered
true the store maps the key of the offer to exactly that offer and its key list
is the old one, with the key appended if it was absent; when it answered false
the store is the store before the step; and the entry under every other key is
the same as before. -/
theorem monitorOffer_store (st : SweepState) (offer : Offer) :
    (isNewOffer st.previousOffers offer = true →
      (monitorOffer st offer).previousOffers.get (offerKey offer) = some offer ∧
      (monitorOffer st offer).previousOffers.keys =
        (if offerKey offer ∈ st.previousOffers.keys then st.previousOffers.keys
         else st.previousOffers.keys ++ [offerKey offer]) ∧
      (monitorOffer st offer).previousOffers.length ≤ st.previousOffers.length + 1) ∧
    (isNewOffer st.previousOffers offer = false →
      (monitorOffer st offer).previousOffers = st.previousOffers) ∧
    (∀ key, key ≠ offerKey offer →
      (monitorOffer st offer).previousOffers.get key = st.previousOffers.get key) := by
  refine ⟨fun h => ?_, fun h => ?_, fun key hkey => ?_⟩
  · have hk := OfferMap.keys_set st.previousOffers (offerKey offer) offer
    refine ⟨?_, ?_, ?_⟩
    · simp [monitorOffer, h, OfferMap.get_set_same]
    · simp only [monitorOffer, h, if_true]
      exact hk
    · simp only [monitorOffer, h, if_true]
      have hl := congrArg List.length hk
      simp only [OfferMap.keys, List.length_map] at hl
      rw [hl]
      split <;> simp
  · simp [monitorOffer, h]
  · exact monitorOffer_get_other st offer key hkey

/-- C3. Applying the per-offer step of `monitorHotels` twice in a row to the same
offer: the second `isNewOffer` answers false and the second step changes
nothing; when the key was unseen the first answer is true and the second false. -/
theorem monitorOffer_twice (st : SweepState) (offer : Offer) :
    isNewOffer (monitorOffer st offer).previousOffers offer = false ∧
    monitorOffer (monitorOffer st offer) offer = monitorOffer st offer ∧
    (st.previousOffers.get (offerKey offer) = none →
      isNewOffer st.previousOffers offer = true ∧
      isNewOffer (monitorOffer st offer).previousOffers offer = false) := by
  have h2 : isNewOffer (monitorOffer st offer).previousOffers offer = false := by
    rw [isNewOffer_eq_false_iff]
    by_cases h : isNewOffer st.previousOffers offer = true
    · exact ⟨offer, by simp [monitorOffer, h, OfferMap.get_set_same], rfl⟩
    · have hf : isNewOffer st.previousOffers offer = false := by simpa using h
      simpa [monitorOffer, hf] using (isNewOffer_eq_false_iff _ _).1 hf
  refine ⟨h2, ?_, fun hnone => ⟨?_, h2⟩⟩
  · generalize monitorOffer st offer = st1 at h2
    simp [monitorOffer, h2]
  · exact (isNewOffer_eq_true_iff _ _).2 (Or.inl hnone)

/-! ## Registry -/

theorem addHotel_of_mem (hotelSources : List Hotel) (hotelName url : JsString)
    (h : hotelName ∈ hotelSources.map Hotel.name) :
    addHotel hotelSources hotelName url = hotelSources := by
  have hany : (hotelSources.any fun hotel => decide (hotel.name = hotelName)) = true := by
    simpa [List.any_eq_true] using h
  simp [addHotel, hany]

theorem addHotel_of_not_mem (hotelSources : List Hotel) (hotelName url : JsString)
    (h : hotelName ∉ hotelSources.map Hotel.name) :
    addHotel hotelSources hotelName url =
      hotelSources ++ [{ name := hotelName, url := url, selector := defaultSelector }] := by
  have hany : (hotelSources.any fun hotel => decide (hotel.name = hotelName)) = false := by
    rw [Bool.eq_false_iff]
    intro hc
    apply h
    simpa [List.any_eq_true] using hc
  simp [addHotel, hany]

theorem countP_name_eq_one (hotelSources : List Hotel) (hotelName : JsString)
    (hdistinct : (hotelSources.map Hotel.name).Nodup)
    (hmem : hotelName ∈ hotelSources.map Hotel.name) :
    hotelSources.countP (fun hotel => decide (hotel.name = hotelName)) = 1 := by
  induction hotelSources with
  | nil => simp at hmem
  | cons hotel rest ih =>
    rw [List.map_cons, List.nodup_cons] at hdistinct
    by_cases hn : hotel.name = hotelName
    · have hzero : rest.countP (fun hotel => decide (hotel.name = hotelName)) = 0 := by
        rw [List.countP_eq_zero]
        intro other hother hc
        apply hdistinct.1
        rw [hn]
        exact List.mem_map.2 ⟨other, hother, by simpa using hc⟩
      simp [List.countP_cons, hn, hzero]
    · have hrest : hotelName ∈ rest.map Hotel.name := by
        rcases List.mem_map.1 hmem with ⟨other, hother, hname⟩
        rcases List.mem_cons.1 hother with rfl | hother
        · exact absurd hname hn
        · exact List.mem_map.2 ⟨other, hother, hname⟩
      simp [List.countP_cons, hn, ih hdistinct.2 hrest]

/-- C4. On a registry with pairwise distinct names, `addHotel(A, url)` followed
by `addHotel(A, otherUrl)`: the second call changes nothing, exactly one entry is
named `A`, the names stay pairwise distinct; when `A` was absent the first call
appends the entry with `url` after the existing entries and that is the location
of `A` afterwards; when `A` was present the registry is the original one and the
location of `A` is the one registered before. -/
theorem addHotel_twice (hotelSources : List Hotel) (hotelName url otherUrl : JsString)
    (hdistinct : (hotelSources.map Hotel.name).Nodup) :
    addHotel (addHotel hotelSources hotelName url) hotelName otherUrl =
      addHotel hotelSources hotelName url ∧
    (addHotel (addHotel hotelSources hotelName url) hotelName otherUrl).countP
      (fun hotel => decide (hotel.name = hotelName)) = 1 ∧
    ((addHotel (addHotel hotelSources hotelName url) hotelName otherUrl).map Hotel.name).Nodup ∧
    (hotelName ∉ hotelSources.map Hotel.name →
      addHotel hotelSources hotelName url =
        hotelSources ++ [{ name := hotelName, url := url, selector := defaultSelector }] ∧
      ∀ hotel ∈ addHotel (addHotel hotelSources hotelName url) hotelName otherUrl,
        hotel.name = hotelName → hotel.url = url) ∧
    (∀ old ∈ hotelSources, old.name = hotelName →
      addHotel hotelSources hotelName url = hotelSources ∧
      ∀ hotel ∈ addHotel (addHotel hotelSources hotelName url) hotelName otherUrl,
        hotel.name = hotelName → hotel.url = old.url) := by
  have hmem1 : hotelName ∈ (addHotel hotelSources hotelName url).map Hotel.name := by
    by_cases h : hotelName ∈ hotelSources.map Hotel.name
    · rw [addHotel_of_mem _ _ _ h]
      exact h
    · rw [addHotel_of_not_mem _ _ _ h]
      simp
  have hsecond := addHotel_of_mem (addHotel hotelSources hotelName url) hotelName otherUrl hmem1
  have hnodup1 : ((addHotel hotelSources hotelName url).map Hotel.name).Nodup := by
    by_cases h : hotelName ∈ hotelSources.map Hotel.name
    · rw [addHotel_of_mem _ _ _ h]
      exact hdistinct
    · rw [addHotel_of_not_mem _ _ _ h, List.map_append, List.nodup_append]
      refine ⟨hdistinct, by simp, ?_⟩
      intro a ha hb
      simp only [List.map_cons, List.map_nil, List.mem_singleton] at hb
      exact h (hb ▸ ha)
  rw [hsecond]
  refine ⟨rfl, ?_, hnodup1, ?_, ?_⟩
  · exact countP_name_eq_one _ _ hnodup1 hmem1
  · intro habsent
    rw [addHotel_of_not_mem _ _ _ habsent]
    refine ⟨rfl, ?_⟩
    intro hotel hin hname
    rcases List.mem_append.1 hin with hold | hnew
    · exact absurd (List.mem_map.2 ⟨hotel, hold, hname⟩) habsent
    · rw [List.mem_singleton.1 hnew]
  · intro old hold hname
    have hpresent : hotelName ∈ hotelSources.map Hotel.name :=
      List.mem_map.2 ⟨old, hold, hname⟩
    rw [addHotel_of_mem _ _ _ hpresent]
    refine ⟨rfl, ?_⟩
    intro hotel hin hn
    have := List.inj_on_of_nodup_map hdistinct hin hold (hn.trans hname.symm)
    rw [this]

/-- Witness of C4: a fresh name `C` added twice to a registry of two hotels. -/
theorem addHotel_twice_witness :
    (sampleRegistry.map Hotel.name).Nodup ∧
    addHotel (addHotel sampleRegistry (utf16 "C") (utf16 "u1")) (utf16 "C") (utf16 "u2") =
      addHotel sampleRegistry (utf16 "C") (utf16 "u1") ∧
    (addHotel (addHotel sampleRegistry (utf16 "C") (utf16 "u1")) (utf16 "C") (utf16 "u2")).countP
      (fun hotel => decide (hotel.name = utf16 "C")) = 1 :=
  ⟨by decide,
   (addHotel_twice sampleRegistry (utf16 "C") (utf16 "u1") (utf16 "u2") (by decide)).1,
   (addHotel_twice sampleRegistry (utf16 "C") (utf16 "u1") (utf16 "u2") (by decide)).2.1⟩

theorem includes_iff (s search : JsString) : includes s search = true ↔ search <:+: s := by
  induction s with
  | nil => simp [includes]
  | cons c cs ih =>
    rw [includes, Bool.or_eq_true, ih, List.infix_cons_iff, List.isPrefixOf_iff_prefix]

theorem removeMatches_iff (hotelName : JsString) (hotel : Hotel) :
    removeMatches hotelName hotel = true ↔
      hotelName <:+: hotel.name ∨ hotel.name <:+: hotelName := by
  simp [removeMatches, includes_iff]

theorem findIndexFrom_spec {α : Type} (p : α → Bool) (xs : List α) (k : Nat) :
    (∃ before x after, xs = before ++ x :: after ∧ (∀ y ∈ before, p y = false) ∧
        p x = true ∧ findIndexFrom p xs k = Int.ofNat (k + before.length)) ∨
    ((∀ y ∈ xs, p y = false) ∧ ∃ n, findIndexFrom p xs k = Int.negSucc n) := by
  induction xs generalizing k with
  | nil => exact Or.inr ⟨by simp, 0, rfl⟩
  | cons x rest ih =>
    by_cases hx : p x = true
    · exact Or.inl ⟨[], x, rest, rfl, by simp, hx, by simp [findIndexFrom, hx]⟩
    · have hx2 : p x = false := by simpa using hx
      rcases ih (k + 1) with ⟨before, y, after, hsplit, hbefore, hy, hidx⟩ | ⟨hall, n, hn⟩
      · refine Or.inl ⟨x :: before, y, after, by simp [hsplit], ?_, hy, ?_⟩
        · intro z hz
          rcases List.mem_cons.1 hz with rfl | hz
          · exact hx2
          · exact hbefore z hz
        · simp only [findIndexFrom, hx2, Bool.false_eq_true, if_false, hidx, List.length_cons]
          congr 1
          omega
      · refine Or.inr ⟨?_, n, by simp [findIndexFrom, hx2, hn]⟩
        intro z hz
        rcases List.mem_cons.1 hz with rfl | hz
        · exact hx2
        · exact hall z hz

theorem splice1_append {α : Type} (before after : List α) (x : α) :
    splice1 (before ++ x :: after) before.length = before ++ after := by
  simp [splice1]

/-- C5. `removeHotel(s)` returns true exactly when some registered name contains
`s` or is contained in `s`; it then deletes the first such entry in registration
order and keeps all the others in order; when it returns false the registry is
unchanged. -/
theorem removeHotel_first_match (hotelSources : List Hotel) (s : JsString) :
    ((removeHotel hotelSources s).1 = true ↔
      ∃ hotel ∈ hotelSources, s <:+: hotel.name ∨ hotel.name <:+: s) ∧
    ((removeHotel hotelSources s).1 = true →
      ∃ before hotel after, hotelSources = before ++ hotel :: after ∧
        (∀ earlier ∈ before, ¬ (s <:+: earlier.name ∨ earlier.name <:+: s)) ∧
        (s <:+: hotel.name ∨ hotel.name <:+: s) ∧
        (removeHotel hotelSources s).2 = before ++ after) ∧
    ((removeHotel hotelSources s).1 = false → (removeHotel hotelSources s).2 = hotelSources) := by
  rcases findIndexFrom_spec (removeMatches s) hotelSources 0 with
    ⟨before, hotel, after, hsplit, hbefore, hhotel, hidx⟩ | ⟨hall, n, hn⟩
  · have hres : removeHotel hotelSources s = (true, before ++ after) := by
      simp only [removeHotel, findIndex, hidx, Nat.zero_add]
      rw [hsplit, splice1_append]
    have hnot : ∀ earlier ∈ before, ¬ (s <:+: earlier.name ∨ earlier.name <:+: s) := by
      intro earlier he hc
      have := hbefore earlier he
      rw [(removeMatches_iff s earlier).2 hc] at this
      exact Bool.noConfusion this
    rw [hres]
    refine ⟨⟨fun _ => ⟨hotel, by simp [hsplit], (removeMatches_iff s hotel).1 hhotel⟩,
      fun _ => rfl⟩, fun _ => ⟨before, hotel, after, hsplit, hnot,
        (removeMatches_iff s hotel).1 hhotel, rfl⟩, fun h => ?_⟩
    exact Bool.noConfusion h
  · have hres : removeHotel hotelSources s = (false, hotelSources) := by
      simp only [removeHotel, findIndex, hn]
    rw [hres]
    refine ⟨⟨fun h => Bool.noConfusion h, ?_⟩, fun h => Bool.noConfusion h, fun _ => rfl⟩
    rintro ⟨hotel, hin, hmatch⟩
    have := hall hotel hin
    rw [(removeMatches_iff s hotel).2 hmatch] at this
    exact Bool.noConfusion this

/-! ## Extraction -/

theorem substring_zero (s : JsString) (n : Nat) : substring s 0 n = s.take n := by
  simp [substring]

theorem truthy_iff (s : JsString) : truthy s = true ↔ s ≠ [] := by
  cases s <;> simp [truthy]

theorem scrapeElement_foldl (source : Hotel) (elements : List RawMatch) (offers : List Offer) :
    elements.foldl (scrapeElement source) offers =
      offers ++ (elements.filter keepsMatch).map (offerOfMatch source) := by
  induction elements generalizing offers with
  | nil => simp
  | cons el rest ih =>
    rw [List.foldl_cons, ih]
    by_cases hk : keepsMatch el = true
    · have hcond : (truthy el.title && (truthy el.price || truthy el.description)) = true := by
        simpa [keepsMatch, truthy] using hk
      simp [scrapeElement, hcond, List.filter_cons, hk, offerOfMatch, substring_zero]
    · have hcond : (truthy el.title && (truthy el.price || truthy el.description)) = false := by
        rw [Bool.eq_false_iff]
        intro hc
        apply hk
        simpa [keepsMatch, truthy] using hc
      simp [scrapeElement, hcond, List.filter_cons, hk]

/-- C7. The offers of `scrapeHotelOffers` are the structural matches with a
non-empty title and a non-empty price or description, in match order; each has a
non-empty title of at most 100 units, a price of at most 50 and a description of
at most 200, cut from the start of the extracted texts, and carries the name and
url of the source. -/
theorem scrapeHotelOffers_filters (source : Hotel) (elements : List RawMatch) :
    scrapeHotelOffers source (some elements) =
      (elements.filter keepsMatch).map (offerOfMatch source) ∧
    (∀ el, keepsMatch el = true ↔ el.title ≠ [] ∧ (el.price ≠ [] ∨ el.description ≠ [])) ∧
    (∀ offer ∈ scrapeHotelOffers source (some elements),
      offer.title ≠ [] ∧ offer.title.length ≤ 100 ∧ offer.price.length ≤ 50 ∧
      offer.description.length ≤ 200 ∧ offer.hotel = source.name ∧ offer.url = source.url ∧
      ∃ el ∈ elements, offer.title = el.title.take 100 ∧ offer.price = el.price.take 50 ∧
        offer.description = el.description.take 200 ∧ offer.title <+: el.title ∧
        offer.price <+: el.price ∧ offer.description <+: el.description) := by
  have hform : scrapeHotelOffers source (some elements) =
      (elements.filter keepsMatch).map (offerOfMatch source) := by
    simp [scrapeHotelOffers, scrapeElement_foldl]
  refine ⟨hform, fun el => by simp [keepsMatch], ?_⟩
  intro offer hoffer
  rw [hform, List.mem_map] at hoffer
  obtain ⟨el, hel, rfl⟩ := hoffer
  rw [List.mem_filter] at hel
  have htitle : el.title ≠ [] := by
    have := hel.2
    simp only [keepsMatch, Bool.and_eq_true, decide_eq_true_eq] at this
    exact this.1
  refine ⟨?_, by simp [offerOfMatch], by simp [offerOfMatch], by simp [offerOfMatch], rfl, rfl,
    el, hel.1, rfl, rfl, rfl, List.take_prefix _ _, List.take_prefix _ _, List.take_prefix _ _⟩
  cases ht : el.title with
  | nil => exact absurd ht htitle
  | cons c cs => simp [offerOfMatch, ht]

/-! ## Notification -/

theorem appendEntry_eq (message : JsString) (offer : Offer) (index : Nat) :
    appendEntry message offer index = message ++ detailedEntry (index + 1) offer := by
  cases hp : offer.price <;> cases hd : offer.description <;>
    simp [appendEntry, detailedEntry, truthy, substring_zero, hp, hd, List.append_assoc]

theorem forEachFrom_appendEntry (offers : List Offer) (index : Nat) (message : JsString) :
    forEachFrom appendEntry offers index message =
      message ++ (numberedEntries (index + 1) offers).flatten := by
  induction offers generalizing index message with
  | nil => simp [forEachFrom, numberedEntries]
  | cons offer rest ih =>
    simp [forEachFrom, numberedEntries, ih, appendEntry_eq, List.append_assoc]

theorem numberedEntries_length (start : Nat) (offers : List Offer) :
    (numberedEntries start offers).length = offers.length := by
  induction offers generalizing start with
  | nil => rfl
  | cons offer rest ih => simp [numberedEntries, ih]

theorem numberedEntries_getElem? (start : Nat) (offers : List Offer) (i : Nat) :
    (numberedEntries start offers)[i]? = (offers[i]?).map (detailedEntry (start + i)) := by
  induction offers generalizing start i with
  | nil => simp [numberedEntries]
  | cons offer rest ih =>
    cases i with
    | zero => simp [numberedEntries]
    | succ j =>
      simp only [numberedEntries, List.getElem?_cons_succ, ih]
      have harith : start + 1 + j = start + (j + 1) := by omega
      rw [harith]

/-- C6. `sendOfferNotification` on `n` offers: for `n = 0` it returns without
calling `pushLineMessage`; for `n > 0` the message is the header, then exactly
`min n 5` detailed entries, the entry at position `i` being that of the `i`-th
offer with number `i + 1`, then the remainder line stating `n - 5` exactly when
`n > 5`, then the footer. -/
theorem sendOfferNotification_entries (offers : List Offer) (now : JsString) :
    (offers.length = 0 → sendOfferNotification offers now = none) ∧
    (0 < offers.length →
      ∃ entries : List JsString,
        entries.length = min offers.length 5 ∧
        (∀ i, i < min offers.length 5 →
          ∃ offer, offers[i]? = some offer ∧
            entries[i]? = some (detailedEntry (i + 1) offer)) ∧
        sendOfferNotification offers now =
          some (notificationHeader ++ entries.flatten ++
            (if 5 < offers.length then remainderLine (offers.length - 5) else []) ++
            notificationFooter now)) := by
  refine ⟨fun h => by simp [sendOfferNotification, h], fun hpos => ?_⟩
  refine ⟨numberedEntries 1 (offers.take 5), ?_, ?_, ?_⟩
  · rw [numberedEntries_length, List.length_take, Nat.min_comm]
  · intro i hi
    have hi5 : i < 5 := lt_of_lt_of_le hi (Nat.min_le_right _ _)
    have hin : i < offers.length := lt_of_lt_of_le hi (Nat.min_le_left _ _)
    refine ⟨offers[i], List.getElem?_eq_getElem hin, ?_⟩
    rw [numberedEntries_getElem?, List.getElem?_take_of_lt hi5, List.getElem?_eq_getElem hin]
    simp [Nat.add_comm]
  · have hne : offers.length ≠ 0 := Nat.pos_iff_ne_zero.1 hpos
    by_cases hmore : 5 < offers.length
    · simp [sendOfferNotification, hne, hmore, forEachFrom_appendEntry, notificationHeader,
        remainderLine, notificationFooter, List.append_assoc]
    · simp [sendOfferNotification, hne, hmore, forEachFrom_appendEntry, notificationHeader,
        notificationFooter, List.append_assoc]

/-! ## The sweep -/

theorem monitorOffer_with (st : SweepState) (offer : Offer) (count : Nat) (seen : List Hotel) :
    monitorOffer { st with checkedCount := count, visited := seen } offer =
      { monitorOffer st offer with checkedCount := count, visited := seen } := by
  by_cases h : isNewOffer st.previousOffers offer = true
  · simp [monitorOffer, h]
  · simp [monitorOffer, h]

theorem foldl_monitorOffer_with (offers : List Offer) (st : SweepState) (count : Nat)
    (seen : List Hotel) :
    offers.foldl monitorOffer { st with checkedCount := count, visited := seen } =
      { offers.foldl monitorOffer st with checkedCount := count, visited := seen } := by
  induction offers generalizing st with
  | nil => rfl
  | cons offer rest ih => rw [List.foldl_cons, List.foldl_cons, monitorOffer_with, ih]

theorem sweepOffers_cons (entry : Hotel × Option (List RawMatch))
    (rest : List (Hotel × Option (List RawMatch))) :
    sweepOffers (entry :: rest) = scrapeHotelOffers entry.1 entry.2 ++ sweepOffers rest := by
  simp [sweepOffers]

theorem foldl_monitorSource (run : List (Hotel × Option (List RawMatch))) (st : SweepState) :
    run.foldl monitorSource st =
      { (sweepOffers run).foldl monitorOffer st with
        checkedCount := st.checkedCount + run.length,
        visited := st.visited ++ run.map Prod.fst } := by
  induction run generalizing st with
  | nil => simp [sweepOffers]
  | cons entry rest ih =>
    rw [List.foldl_cons, ih, sweepOffers_cons, List.foldl_append]
    simp only [monitorSource, foldl_monitorOffer_with, List.length_cons, List.map_cons,
      List.append_assoc, List.singleton_append]
    congr 1
    omega

theorem monitorLoop_eq (previousOffers : OfferMap) (run : List (Hotel × Option (List RawMatch))) :
    monitorLoop previousOffers run =
      { (sweepOffers run).foldl monitorOffer (sweepStart previousOffers) with
        checkedCount := run.length, visited := run.map Prod.fst } := by
  have h := foldl_monitorSource run (sweepStart previousOffers)
  simp only [sweepStart, Nat.zero_add, List.nil_append] at h
  simpa [monitorLoop, sweepStart] using h

theorem sweepOffers_failure (before after : List (Hotel × Option (List RawMatch)))
    (source : Hotel) :
    sweepOffers (before ++ (source, none) :: after) = sweepOffers (before ++ after) := by
  simp [sweepOffers, scrapeHotelOffers]

/-- C8. A run of `monitorHotels` over the registry, each source paired with the
outcome of its request: every source is visited in registration order and
`checkedCount` is the number of sources; the store and the list of changed offers
are those obtained by classifying, in order, the offers of the sources whose
request succeeded; the step of a failing source changes neither the store nor
the list; and a failing source anywhere in the registry leaves store, list and
notification as they are without that source. -/
theorem monitorHotels_survives_failures (previousOffers : OfferMap)
    (run : List (Hotel × Option (List RawMatch))) (now : JsString) :
    (monitorHotels previousOffers run now).1.checkedCount = run.length ∧
    (monitorHotels previousOffers run now).1.visited = run.map Prod.fst ∧
    (monitorHotels previousOffers run now).1.previousOffers =
      ((sweepOffers (run.filter fun entry => entry.2.isSome)).foldl monitorOffer
        (sweepStart previousOffers)).previousOffers ∧
    (monitorHotels previousOffers run now).1.newOffers =
      ((sweepOffers (run.filter fun entry => entry.2.isSome)).foldl monitorOffer
        (sweepStart previousOffers)).newOffers ∧
    (∀ (st : SweepState) (source : Hotel),
      monitorSource st (source, none) =
        { st with checkedCount := st.checkedCount + 1, visited := st.visited ++ [source] }) ∧
    (∀ (before after : List (Hotel × Option (List RawMatch))) (source : Hotel),
      run = before ++ (source, none) :: after →
      (monitorHotels previousOffers run now).1.previousOffers =
        (monitorHotels previousOffers (before ++ after) now).1.previousOffers ∧
      (monitorHotels previousOffers run now).1.newOffers =
        (monitorHotels previousOffers (before ++ after) now).1.newOffers ∧
      (monitorHotels previousOffers run now).2 =
        (monitorHotels previousOffers (before ++ after) now).2) := by
  have hfilter : sweepOffers (run.filter fun entry => entry.2.isSome) = sweepOffers run := by
    induction run with
    | nil => rfl
    | cons entry rest ih =>
      obtain ⟨source, response⟩ := entry
      cases response with
      | none => simpa [List.filter_cons, sweepOffers_cons, scrapeHotelOffers] using ih
      | some elements => simp [List.filter_cons, sweepOffers_cons, ih]
  refine ⟨by simp [monitorHotels, monitorLoop_eq], by simp [monitorHotels, monitorLoop_eq],
    by simp [monitorHotels, monitorLoop_eq, hfilter],
    by simp [monitorHotels, monitorLoop_eq, hfilter], ?_, ?_⟩
  · intro st source
    simp [monitorSource, scrapeHotelOffers]
  · intro before after source hrun
    subst hrun
    simp [monitorHotels, monitorLoop_eq, sweepOffers_failure]

/-- Witness of C8: three sources, the request of the second fails; all three are
visited, and the offers of the first and the third are reported. -/
theorem monitorHotels_survives_failures_witness :
    (monitorHotels [] threeSourceRun []).1.checkedCount = 3 ∧
    (monitorHotels [] threeSourceRun []).1.visited.map Hotel.name =
      [utf16 "Hotel1", utf16 "Hotel2", utf16 "Hotel3"] ∧
    (monitorHotels [] threeSourceRun []).1.newOffers.map Offer.hotel =
      [utf16 "Hotel1", utf16 "Hotel3"] ∧
    (monitorHotels [] threeSourceRun []).1.newOffers =
      (monitorHotels [] (threeSourceRun.take 1 ++ threeSourceRun.drop 2) []).1.newOffers :=
  ⟨(monitorHotels_survives_failures [] threeSourceRun []).1, by decide, by decide,
   ((monitorHotels_survives_failures [] threeSourceRun []).2.2.2.2.2
      (threeSourceRun.take 1) (threeSourceRun.drop 2)
      ⟨utf16 "Hotel2", utf16 "https://hotel2.example/", defaultSelector⟩ (by decide)).2.1⟩

/-! ## The key of an offer -/

theorem offerKey_congr (a b : Offer) (hhotel : a.hotel = b.hotel) (htitle : a.title = b.title) :
    offerKey a = offerKey b := by
  simp [offerKey, hhotel, htitle]

/-- C9. Two offers of different hotels and different titles get the same key:
hotel `A` with title `B-C` and hotel `A-B` with title `C` both give `A-B-C`, and
once the first is stored the second, never seen, is answered as not new. -/
theorem offerKey_collision :
    offerOfA.hotel ≠ offerOfAB.hotel ∧ offerOfA.title ≠ offerOfAB.title ∧
    offerKey offerOfA = utf16 "A-B-C" ∧ offerKey offerOfAB = utf16 "A-B-C" ∧
    isNewOffer (sweepStart []).previousOffers offerOfA = true ∧
    isNewOffer (monitorOffer (sweepStart []) offerOfA).previousOffers offerOfAB = false := by
  decide

/-! ## Two consecutive sweeps -/

theorem monitorOffer_stored (st : SweepState) (offer : Offer) :
    ∃ stored, (monitorOffer st offer).previousOffers.get (offerKey offer) = some stored ∧
      stored.price = offer.price := by
  by_cases h : isNewOffer st.previousOffers offer = true
  · exact ⟨offer, by simp [monitorOffer, h, OfferMap.get_set_same], rfl⟩
  · have hf : isNewOffer st.previousOffers offer = false := by simpa using h
    simpa [monitorOffer, hf] using (isNewOffer_eq_false_iff _ _).1 hf

theorem foldl_monitorOffer_keeps (offers : List Offer) (st : SweepState) (key price : JsString)
    (hst : ∃ stored, st.previousOffers.get key = some stored ∧ stored.price = price)
    (hsame : ∀ offer ∈ offers, offerKey offer = key → offer.price = price) :
    ∃ stored, (offers.foldl monitorOffer st).previousOffers.get key = some stored ∧
      stored.price = price := by
  induction offers generalizing st with
  | nil => exact hst
  | cons offer rest ih =>
    rw [List.foldl_cons]
    apply ih
    · by_cases hkey : offerKey offer = key
      · have hprice := hsame offer (List.mem_cons_self _ _) hkey
        obtain ⟨stored, hget, hstored⟩ := monitorOffer_stored st offer
        exact ⟨stored, hkey ▸ hget, hstored.trans hprice⟩
      · rw [monitorOffer_get_other st offer key (fun e => hkey e.symm)]
        exact hst
    · intro other hother
      exact hsame other (List.mem_cons_of_mem _ hother)

theorem foldl_monitorOffer_records (offers : List Offer) (st : SweepState)
    (hconsistent : ∀ a ∈ offers, ∀ b ∈ offers, offerKey a = offerKey b → a.price = b.price) :
    ∀ a ∈ offers, ∃ stored,
      (offers.foldl monitorOffer st).previousOffers.get (offerKey a) = some stored ∧
        stored.price = a.price := by
  induction offers generalizing st with
  | nil => intro a ha; simp at ha
  | cons offer rest ih =>
    intro a ha
    rw [List.foldl_cons]
    rcases List.mem_cons.1 ha with rfl | harest
    · apply foldl_monitorOffer_keeps rest _ _ _ (monitorOffer_stored st a)
      intro b hb hkey
      exact hconsistent b (List.mem_cons_of_mem _ hb) a (List.mem_cons_self _ _) hkey
    · exact ih (monitorOffer st offer)
        (fun x hx y hy => hconsistent x (List.mem_cons_of_mem _ hx) y (List.mem_cons_of_mem _ hy))
        a harest

theorem foldl_monitorOffer_unchanged (offers : List Offer) (st : SweepState)
    (hseen : ∀ offer ∈ offers, isNewOffer st.previousOffers offer = false) :
    offers.foldl monitorOffer st = st := by
  induction offers with
  | nil => rfl
  | cons offer rest ih =>
    have hstep : monitorOffer st offer = st := by
      simp [monitorOffer, hseen offer (List.mem_cons_self _ _)]
    rw [List.foldl_cons, hstep]
    exact ih (fun other hother => hseen other (List.mem_cons_of_mem _ hother))

theorem sweepOffers_map_observed (run : List (Hotel × Option (List RawMatch))) :
    (sweepOffers run).map observed =
      (run.map fun entry => (scrapeHotelOffers entry.1 entry.2).map observed).flatten := by
  induction run with
  | nil => rfl
  | cons entry rest ih => simp [sweepOffers_cons, ih]

/-- C10, as stated, fails: on a page showing the same title with two prices, the
second of two identical sweeps reports both offers again and sends a notification. -/
theorem second_sweep_flaps :
    (monitorHotels (monitorHotels [] flappingRun []).1.previousOffers flappingRun []).1.newOffers.length
      = 2 ∧
    (monitorHotels (monitorHotels [] flappingRun []).1.previousOffers flappingRun []).2.isSome
      = true := by
  decide

/-- C10, amended. If the second of two consecutive sweeps extracts from every
source offers with the same hotel, title and price, in the same order, as the
first, and no two offers of the first sweep share a key with different prices,
then the second sweep answers false for every offer at the moment it is
classified, its list of changed offers is empty, the store is the one the first
sweep left, and no notification is sent. -/
theorem second_sweep_unchanged (previousOffers : OfferMap)
    (run1 run2 : List (Hotel × Option (List RawMatch))) (now1 now2 : JsString)
    (hsame : (run2.map fun entry => (scrapeHotelOffers entry.1 entry.2).map observed) =
      (run1.map fun entry => (scrapeHotelOffers entry.1 entry.2).map observed))
    (hconsistent : ∀ a ∈ sweepOffers run1, ∀ b ∈ sweepOffers run1,
      offerKey a = offerKey b → a.price = b.price) :
    (∀ before offer after, sweepOffers run2 = before ++ offer :: after →
      isNewOffer (before.foldl monitorOffer
        (sweepStart (monitorHotels previousOffers run1 now1).1.previousOffers)).previousOffers
        offer = false) ∧
    (monitorHotels (monitorHotels previousOffers run1 now1).1.previousOffers run2 now2).1.newOffers
      = [] ∧
    (monitorHotels (monitorHotels previousOffers run1 now1).1.previousOffers run2
        now2).1.previousOffers
      = (monitorHotels previousOffers run1 now1).1.previousOffers ∧
    (monitorHotels (monitorHotels previousOffers run1 now1).1.previousOffers run2 now2).2
      = none := by
  have hstore : (monitorHotels previousOffers run1 now1).1.previousOffers =
      ((sweepOffers run1).foldl monitorOffer (sweepStart previousOffers)).previousOffers := by
    simp [monitorHotels, monitorLoop_eq]
  have hseen : ∀ offer ∈ sweepOffers run2,
      isNewOffer (monitorHotels previousOffers run1 now1).1.previousOffers offer = false := by
    intro offer hoffer
    have hobs : observed offer ∈ (sweepOffers run1).map observed := by
      rw [sweepOffers_map_observed, ← hsame, ← sweepOffers_map_observed]
      exact List.mem_map_of_mem _ hoffer
    obtain ⟨first, hfirst, heq⟩ := List.mem_map.1 hobs
    simp only [observed, Prod.mk.injEq] at heq
    obtain ⟨stored, hget, hprice⟩ :=
      foldl_monitorOffer_records (sweepOffers run1) (sweepStart previousOffers) hconsistent
        first hfirst
    rw [isNewOffer_eq_false_iff, hstore, ← offerKey_congr first offer heq.1 heq.2.1]
    exact ⟨stored, hget, hprice.trans heq.2.2⟩
  have hfold : (sweepOffers run2).foldl monitorOffer
      (sweepStart (monitorHotels previousOffers run1 now1).1.previousOffers) =
      sweepStart (monitorHotels previousOffers run1 now1).1.previousOffers :=
    foldl_monitorOffer_unchanged _ _ hseen
  refine ⟨?_, ?_, ?_, ?_⟩
  · intro before offer after hsplit
    have hbefore : before.foldl monitorOffer
        (sweepStart (monitorHotels previousOffers run1 now1).1.previousOffers) =
        sweepStart (monitorHotels previousOffers run1 now1).1.previousOffers := by
      apply foldl_monitorOffer_unchanged
      intro other hother
      exact hseen other (by rw [hsplit]; exact List.mem_append_left _ hother)
    rw [hbefore]
    exact hseen offer (by rw [hsplit]; simp)
  · rw [monitorHotels, monitorLoop_eq, hfold]
    rfl
  · rw [monitorHotels, monitorLoop_eq, hfold]
    rfl
  · rw [monitorHotels, monitorLoop_eq, hfold]
    rfl

/-- Witness of C10, amended: two sweeps over a page with a single offer, read
again later with another description. -/
theorem second_sweep_unchanged_witness :
    ((steadyRunLater.map fun entry => (scrapeHotelOffers entry.1 entry.2).map observed) =
      (steadyRun.map fun entry => (scrapeHotelOffers entry.1 entry.2).map observed)) ∧
    (∀ a ∈ sweepOffers steadyRun, ∀ b ∈ sweepOffers steadyRun,
      offerKey a = offerKey b → a.price = b.price) ∧
    (monitorHotels (monitorHotels [] steadyRun []).1.previousOffers steadyRunLater []).1.newOffers
      = [] ∧
    (monitorHotels (monitorHotels [] steadyRun []).1.previousOffers steadyRunLater []).2 = none :=
  ⟨by decide, by decide,
   (second_sweep_unchanged [] steadyRun steadyRunLater [] [] (by decide) (by decide)).2.1,
   (second_sweep_unchanged [] steadyRun steadyRunLater [] [] (by decide) (by decide)).2.2.2⟩

end TainanHotelMonitor
